import Mathlib

/-!
Verification of the `one-min-cache` TTL cache.

Shallow embedding of `src/index.js` and `src/helpers.js` of the
`one-min-cache` repository: a single-process in-memory key/value cache with
per-entry TTL expiration.

Modelling conventions:
* JavaScript values are modelled by `JSVal` (undefined, null, booleans,
  numbers with NaN as a separate constructor, strings, and opaque object
  references into an explicit heap used only by the size estimator).
* The storage object `this.storage` is modelled as an association list from
  string keys to entries, mirroring the own-property mapping of a plain
  JS object (prototype-chain keys such as `"constructor"` are outside the
  model; the spec's data model is `key (string) -> Entry`).
* Mutation is modelled by explicit state passing: each operation takes the
  current storage and returns its result together with the new storage.
* The current time `new Date().getTime()` is passed explicitly as `now`.
* A thrown JS exception is modelled by an `Option String` error component
  (for `add`) or `Except` (for the constructor); all other operations
  contain no `throw` in the source and are total functions.
-/

set_option autoImplicit false

namespace OneMinCache

/-- JavaScript values, as far as the cache observes them.  Object values are
opaque references (`obj i`) into a heap; `nan` is kept separate from `num`
because NaN is falsy yet has `typeof === 'number'`. -/
inductive JSVal where
  | undef
  | null
  | bool (b : Bool)
  | num (n : Int)
  | nan
  | str (s : String)
  | obj (i : Nat)
deriving DecidableEq, Repr

/-- JavaScript truthiness of a `JSVal`: `undefined`, `null`, `false`, `0`,
`NaN` and `""` are falsy; everything else is truthy. -/
def truthy : JSVal → Bool
  | .undef => false
  | .null => false
  | .bool b => b
  | .num n => n != 0
  | .nan => false
  | .str s => s != ""
  | .obj _ => true

/-- Predicate for `typeof v === 'number'` (true for NaN as well). -/
def jsTypeofNumber : JSVal → Bool
  | .num _ => true
  | .nan => true
  | _ => false

/-- A storage entry `{ data, expiresAt }`.  `expiresAt` is `null` (`none`)
for entries without expiration, otherwise an absolute timestamp in ms. -/
structure Entry where
  data : JSVal
  expiresAt : Option Int
deriving DecidableEq, Repr

/-- Model of `this.storage`: a mapping from string keys to entries, as an ordered
association list (JS objects preserve insertion order). -/
abbrev Storage := List (String × Entry)

/-- Helper `checkExpiration(expiresAt)` of `helpers.js`: true iff `expiresAt !== null`
and `new Date().getTime() > expiresAt`. -/
def checkExpiration (now : Int) (expiresAt : Option Int) : Bool :=
  match expiresAt with
  | none => false
  | some t => now > t

/-- Truthiness of the stored `expiresAt` field as a JS value: `null` and the
timestamp `0` are falsy.  This is the guard `this.storage[key].expiresAt &&`
used by `clearExpired` (which, unlike `checkExpiration`, skips a zero
timestamp). -/
def expiresAtTruthy : Option Int → Bool
  | none => false
  | some t => t != 0

/-- Replace the entry stored under `k` (keeping its position, as JS property
assignment does), or append it if the key is new.  Net effect of
`if (!storage[key]) storage[key] = {}` followed by assigning `.data` and
`.expiresAt`. -/
def setKey : Storage → String → Entry → Storage
  | [], k, e => [(k, e)]
  | (k', e') :: rest, k, e =>
      if k' = k then (k, e) :: rest else (k', e') :: setKey rest k e

/-- Operation `clear(key)`: `delete this.storage[key]`. -/
def clear (k : String) (st : Storage) : Storage :=
  st.filter (fun p => p.1 ≠ k)

/-- The `expiresAt` computed by `add`: starts at `null`, then
`if (liveTimeMs && typeof liveTimeMs == 'number')` it becomes
`now + liveTimeMs`.  So any truthy number (including a negative one) yields
a timestamp, while `0`, NaN and every non-number yield `null`. -/
def expiresAtOf (now : Int) (liveTimeMs : JSVal) : Option Int :=
  match liveTimeMs with
  | .num n => if n != 0 then some (now + n) else none
  | _ => none

/-- Operation `add(key, dataToStore, liveTimeMs)`.  The key is `Option String` with
`none` modelling an `undefined` argument.  Returns the new storage together
with the raised error message, if any; on a throw the storage component is
the unchanged input (the source throws before any mutation). -/
def add (now : Int) (key : Option String) (dataToStore : JSVal)
    (liveTimeMs : JSVal) (st : Storage) : Storage × Option String :=
  match key with
  | none => (st, some "Missing required field: key")
  | some k =>
      if dataToStore = .undef then
        (st, some "Missing required field: dataToStore")
      else
        (setKey st k ⟨dataToStore, expiresAtOf now liveTimeMs⟩, none)

/-- Operation `add` with the `liveTimeMs` argument omitted: the declared default is the
literal `60 * 1000` (not `options.liveTimeMs`, which the source never
reads). -/
def addDefault (now : Int) (key : Option String) (dataToStore : JSVal)
    (st : Storage) : Storage × Option String :=
  add now key dataToStore (.num 60000) st

/-- Operation `get(key)`: returns `null` when the key is absent; otherwise the stored
data passes through the truthiness guard
`if (storage[key] && storage[key].data)` — falsy stored data leaves the
result at `null`.  If `checkExpiration` fires, the entry is deleted and
`null` returned. -/
def get (now : Int) (k : String) (st : Storage) : JSVal × Storage :=
  match st.lookup k with
  | none => (.null, st)
  | some e =>
      let cachedData := if truthy e.data then e.data else JSVal.null
      if checkExpiration now e.expiresAt then (.null, clear k st)
      else (cachedData, st)

/-- Operation `has(key)`: first the lazy-expiration step (for an absent key the source
evaluates `checkExpiration(undefined)`, which is `false` because
`now > undefined` is `false`); then the presence check
`key in storage && storage[key].data !== undefined`. -/
def has (now : Int) (k : String) (st : Storage) : Bool × Storage :=
  let st1 :=
    match st.lookup k with
    | some e => if checkExpiration now e.expiresAt then clear k st else st
    | none => st
  let result :=
    match st1.lookup k with
    | some e => e.data ≠ JSVal.undef
    | none => false
  (result, st1)

/-- Operation `clearExpired()`: captures one timestamp, then deletes every entry whose
`expiresAt` is truthy and strictly less than that timestamp. -/
def clearExpired (now : Int) (st : Storage) : Storage :=
  st.filter (fun p => ¬ (expiresAtTruthy p.2.expiresAt ∧ now > p.2.expiresAt.getD 0))

/-- Truthiness of the stored `options.clearExpiredMs` (post-validation it is
either `null` or a nonzero number). -/
def optTruthy : Option Int → Bool
  | none => false
  | some n => n != 0

/-- Operation `getAll()`: when the (validated) `options.clearExpiredMs` is truthy it
first runs `clearExpired()`; it returns the live internal mapping, so the
returned object and the post-call storage are one and the same. -/
def getAll (now : Int) (clearExpiredMs : Option Int) (st : Storage) :
    Storage × Storage :=
  let st1 := if optTruthy clearExpiredMs then clearExpired now st else st
  (st1, st1)

/-- Operation `clearAll()`: `this.storage = \x7b\x7d`. -/
def clearAll (_st : Storage) : Storage := []

/-- Operation `getKeys()`: `Object.keys(this.storage)`. -/
def getKeys (st : Storage) : List String := st.map Prod.fst

/-- Operation `getKeysQty()`: `Object.keys(this.storage).length`. -/
def getKeysQty (st : Storage) : Nat := (st.map Prod.fst).length

/-- The raw options object passed to the constructor; each field is an
arbitrary JS value.  `liveTimeMs` is listed because the README documents it,
even though the constructor never reads it. -/
structure OptionsIn where
  clearExpiredMs : JSVal
  debug : JSVal
  maxSizeKb : JSVal
  liveTimeMs : JSVal
deriving DecidableEq, Repr

/-- The sanitized option state after construction: `this.options` holds
`debug` and `clearExpiredMs`; the sanitized `maxSizeKb` only mutates the
local options object and is never stored on `this.options`, but its
validation outcome is kept here for completeness. -/
structure CacheOptions where
  debug : Bool
  clearExpiredMs : Option Int
  maxSizeKb : JSVal
deriving DecidableEq, Repr

/-- The constructor's option validation.
* `if (!options.clearExpiredMs) options.clearExpiredMs = null` — any falsy
  value (including `0` and NaN) becomes `null`;
* then `if (options.clearExpiredMs !== null && typeof options.clearExpiredMs
  !== 'number') throw` — a truthy non-number RAISES an error;
* `debug` falls back to `false` unless boolean; `maxSizeKb` falls back to
  `null` unless a number.
No diagnostic is emitted anywhere (the `warnMsg` helper is never called). -/
def construct (o : OptionsIn) : Except String CacheOptions :=
  let cem : JSVal := if truthy o.clearExpiredMs then o.clearExpiredMs else .null
  if cem ≠ JSVal.null ∧ jsTypeofNumber cem = false then
    Except.error "Incorrect value of options.clearExpiredMs"
  else
    let debugV : Bool := match o.debug with | .bool b => b | _ => false
    let maxSizeKbV : JSVal :=
      if jsTypeofNumber o.maxSizeKb then o.maxSizeKb else .null
    let clearExpiredMsV : Option Int :=
      match cem with | .num n => some n | _ => none
    Except.ok ⟨debugV, clearExpiredMsV, maxSizeKbV⟩

/-- Whether the automatic sweep timer is started at construction:
`if (options.clearExpiredMs) setInterval(...)`. -/
def timerStarted (opts : CacheOptions) : Bool :=
  optTruthy opts.clearExpiredMs

/-! ## Size estimator (`helpers.js` `calcApproxObjSize`)

Object values live in an explicit heap mapping each object id to the list
of its own enumerable field values (field names are never counted by the
source: only `value[key]` is pushed on the stack). -/

/-- The object heap: id ↦ field values. -/
abbrev Heap := List (Nat × List JSVal)

/-- The ids present in the heap. -/
def heapIds (h : Heap) : List Nat := h.map Prod.fst

/-- The field values of object `i` (an id absent from the heap has no
fields). -/
def fieldsOf (h : Heap) (i : Nat) : List JSVal :=
  match h.lookup i with
  | some fs => fs
  | none => []

/-- Termination measure helper: how many heap objects have not yet been
pushed to `objectList`. -/
def unvisitedCount (h : Heap) (visited : List JSVal) : Nat :=
  ((heapIds h).filter (fun i => JSVal.obj i ∉ visited)).length

/-- Termination measure helper: total number of field slots in the heap. -/
def fieldSum (h : Heap) : Nat := (h.map (fun p => p.2.length)).sum

theorem filterLength_mono {α : Type} (l : List α) (p q : α → Bool)
    (hpq : ∀ a, q a = true → p a = true) :
    (l.filter q).length ≤ (l.filter p).length :=
  (List.monotone_filter_right l hpq).length_le

theorem filterLength_strict {α : Type} (l : List α) (p q : α → Bool)
    (hpq : ∀ a, q a = true → p a = true) (a : α) (ha : a ∈ l)
    (hpa : p a = true) (hqa : q a = false) :
    (l.filter q).length < (l.filter p).length := by
  induction l with
  | nil => cases ha
  | cons b t ih =>
    by_cases hb : b = a
    · subst hb
      rw [List.filter_cons_of_pos hpa, List.filter_cons_of_neg (by simp [hqa])]
      have := filterLength_mono t p q hpq
      simp only [List.length_cons]
      omega
    · have hmem : a ∈ t := by
        rcases List.mem_cons.mp ha with h1 | h2
        · exact absurd h1.symm hb
        · exact h2
      have hrec := ih hmem
      by_cases hq : q b = true
      · rw [List.filter_cons_of_pos (hpq b hq), List.filter_cons_of_pos hq]
        simpa using Nat.succ_lt_succ hrec
      · by_cases hp : p b = true
        · rw [List.filter_cons_of_neg (by simp [Bool.not_eq_true] at hq ⊢; exact hq),
              List.filter_cons_of_pos hp]
          simp only [List.length_cons]
          omega
        · rw [List.filter_cons_of_neg (by simp [Bool.not_eq_true] at hq ⊢; exact hq),
              List.filter_cons_of_neg (by simp [Bool.not_eq_true] at hp ⊢; exact hp)]
          exact hrec

theorem unvisitedCount_cons_le (h : Heap) (v : JSVal) (visited : List JSVal) :
    unvisitedCount h (v :: visited) ≤ unvisitedCount h visited := by
  refine filterLength_mono (heapIds h) _ _ (fun i hi => ?_)
  simp only [decide_eq_true_eq] at hi ⊢
  exact fun hmem => hi (List.mem_cons_of_mem v hmem)

theorem unvisitedCount_cons_lt (h : Heap) (i : Nat) (visited : List JSVal)
    (hi : i ∈ heapIds h) (hnot : JSVal.obj i ∉ visited) :
    unvisitedCount h (JSVal.obj i :: visited) < unvisitedCount h visited := by
  refine filterLength_strict (heapIds h) _ _ (fun j hj => ?_) i hi ?_ ?_
  · simp only [decide_eq_true_eq] at hj ⊢
    exact fun hmem => hj (List.mem_cons_of_mem _ hmem)
  · simp only [decide_eq_true_eq]
    exact hnot
  · simp

theorem lookup_length_le_fieldSum (h : Heap) (i : Nat) (fs : List JSVal)
    (hl : h.lookup i = some fs) : fs.length ≤ fieldSum h := by
  induction h with
  | nil => simp [List.lookup] at hl
  | cons p t ih =>
    rw [List.lookup] at hl
    by_cases hpi : (i == p.1) = true
    · simp only [hpi] at hl
      cases hl
      simp [fieldSum]
    · simp only [Bool.not_eq_true] at hpi
      simp only [hpi] at hl
      have := ih hl
      simp only [fieldSum, List.map_cons, List.sum_cons] at this ⊢
      omega

theorem lookup_eq_none_of_not_mem (h : Heap) (i : Nat)
    (hmem : i ∉ heapIds h) : h.lookup i = none := by
  induction h with
  | nil => rfl
  | cons p t ih =>
    simp only [heapIds, List.map_cons, List.mem_cons] at hmem
    push_neg at hmem
    rw [List.lookup]
    have hne : (i == p.1) = false := by
      simp only [beq_eq_false_iff_ne, ne_eq]
      exact hmem.1
    rw [hne]
    exact ih hmem.2

theorem fieldsOf_length_le (h : Heap) (i : Nat) :
    (fieldsOf h i).length ≤ fieldSum h := by
  unfold fieldsOf
  cases hl : h.lookup i with
  | none => simp
  | some fs => simp only; exact lookup_length_le_fieldSum h i fs hl

theorem sizeLoop_measure_null (h : Heap) (visited : List JSVal) (r : Nat) :
    unvisitedCount h (JSVal.null :: visited) * (fieldSum h + 1) + r
    < unvisitedCount h visited * (fieldSum h + 1) + (r + 1) := by
  have hle := unvisitedCount_cons_le h JSVal.null visited
  have hmul : unvisitedCount h (JSVal.null :: visited) * (fieldSum h + 1)
      ≤ unvisitedCount h visited * (fieldSum h + 1) :=
    Nat.mul_le_mul_right _ hle
  omega

theorem sizeLoop_measure_obj (h : Heap) (visited : List JSVal) (i : Nat)
    (hnot : JSVal.obj i ∉ visited) (r : Nat) :
    unvisitedCount h (JSVal.obj i :: visited) * (fieldSum h + 1)
      + ((fieldsOf h i).length + r)
    < unvisitedCount h visited * (fieldSum h + 1) + (r + 1) := by
  by_cases hi : i ∈ heapIds h
  · have hlt := unvisitedCount_cons_lt h i visited hi hnot
    have hfl := fieldsOf_length_le h i
    have hmul : (unvisitedCount h (JSVal.obj i :: visited) + 1)
        * (fieldSum h + 1) ≤ unvisitedCount h visited * (fieldSum h + 1) :=
      Nat.mul_le_mul_right _ hlt
    have hexp : (unvisitedCount h (JSVal.obj i :: visited) + 1) * (fieldSum h + 1)
        = unvisitedCount h (JSVal.obj i :: visited) * (fieldSum h + 1)
          + (fieldSum h + 1) := by
      ring
    omega
  · have h0 : fieldsOf h i = [] := by
      unfold fieldsOf
      rw [lookup_eq_none_of_not_mem h i hi]
    have hle := unvisitedCount_cons_le h (JSVal.obj i) visited
    have hmul : unvisitedCount h (JSVal.obj i :: visited) * (fieldSum h + 1)
        ≤ unvisitedCount h visited * (fieldSum h + 1) :=
      Nat.mul_le_mul_right _ hle
    rw [h0]
    simp only [List.length_nil]
    omega

/-- The `while (stack.length)` loop of `calcApproxObjSize`: pop a value;
booleans cost 4 bytes, strings 2 per character, numbers 8; an object not in
`objectList` is recorded there and its own field values are pushed (the JS
`pop` takes from the array's end, so the fields are processed in reverse
order); `null` has `typeof 'object'` and takes the object branch with no
fields.  Terminates because each heap object enters `visited` at most once
and every other step shrinks the stack. -/
def sizeLoop (h : Heap) (visited stack : List JSVal) (bytes : Nat) : Nat :=
  match stack with
  | [] => bytes
  | value :: rest =>
    match value with
    | .bool _ => sizeLoop h visited rest (bytes + 4)
    | .str s => sizeLoop h visited rest (bytes + s.length * 2)
    | .num _ => sizeLoop h visited rest (bytes + 8)
    | .nan => sizeLoop h visited rest (bytes + 8)
    | .undef => sizeLoop h visited rest bytes
    | .null =>
        if JSVal.null ∈ visited then sizeLoop h visited rest bytes
        else sizeLoop h (JSVal.null :: visited) rest bytes
    | .obj i =>
        if JSVal.obj i ∈ visited then sizeLoop h visited rest bytes
        else sizeLoop h (JSVal.obj i :: visited)
               ((fieldsOf h i).reverse ++ rest) bytes
termination_by unvisitedCount h visited * (fieldSum h + 1) + stack.length
decreasing_by
  all_goals simp_wf
  · exact sizeLoop_measure_null h visited rest.length
  · rename_i hnot
    have := sizeLoop_measure_obj h visited i hnot rest.length
    simpa using this

/-- Function `calcApproxObjSize(object)`: run the loop from a one-element stack and
return `Math.round(bytes / 1024)` (halves round up, so this is
`(bytes + 512) / 1024` in integer arithmetic). -/
def calcApproxObjSize (h : Heap) (object : JSVal) : Nat :=
  (sizeLoop h [] [object] 0 + 512) / 1024

/-- First id not used by the heap (all synthetic nodes built for the
storage object get ids at or above this). -/
def freshBase (h : Heap) : Nat := (heapIds h).foldr max 0 + 1

/-- The `expiresAt` field as the JS value stored on an entry object. -/
def expiresAtVal : Option Int → JSVal
  | some t => .num t
  | none => .null

/-- The own enumerable field values of one entry object, in insertion order
(`.data` then `.expiresAt`). -/
def entryFields (e : Entry) : List JSVal := [e.data, expiresAtVal e.expiresAt]

/-- The heap extended with one node per entry object and one root node for
`this.storage` itself, whose fields are the entry objects. -/
def storageHeap (h : Heap) (st : Storage) : Heap :=
  h ++ (st.enum.map fun p => (freshBase h + p.1, entryFields p.2.2))
    ++ [(freshBase h + st.length,
         (List.range st.length).map fun j => JSVal.obj (freshBase h + j))]

/-- Operation `getSizeKb()`: `calcApproxObjSize(this.storage)`. -/
def getSizeKb (h : Heap) (st : Storage) : Nat :=
  calcApproxObjSize (storageHeap h st) (.obj (freshBase h + st.length))


/-! ## Support lemmas shared by the claim theorems -/

theorem setKey_lookup (st : Storage) (k : String) (e : Entry) :
    (setKey st k e).lookup k = some e := by
  induction st with
  | nil => simp [setKey, List.lookup]
  | cons p t ih =>
    by_cases hp : p.1 = k
    · simp [setKey, hp, List.lookup]
    · simp only [setKey]
      rw [if_neg hp]
      rw [List.lookup]
      have : (k == p.1) = false := by
        simp only [beq_eq_false_iff_ne, ne_eq]
        exact fun hh => hp hh.symm
      rw [this]
      exact ih

theorem lookup_none_keys (st : Storage) (k : String)
    (hl : st.lookup k = none) : ∀ p ∈ st, p.1 ≠ k := by
  induction st with
  | nil => intro p hp; cases hp
  | cons q t ih =>
    intro p hp
    rw [List.lookup] at hl
    by_cases hq : (k == q.1) = true
    · rw [hq] at hl; cases hl
    · simp only [Bool.not_eq_true] at hq
      rw [hq] at hl
      rcases List.mem_cons.mp hp with h1 | h2
      · subst h1
        intro hk
        rw [hk] at hq
        simp at hq
      · exact ih hl p h2

theorem clear_of_absent (st : Storage) (k : String)
    (hl : st.lookup k = none) : clear k st = st := by
  unfold clear
  rw [List.filter_eq_self]
  intro p hp
  simpa using lookup_none_keys st k hl p hp

theorem clear_lookup_none (st : Storage) (k : String) :
    (clear k st).lookup k = none := by
  induction st with
  | nil => rfl
  | cons p t ih =>
    unfold clear at ih ⊢
    rw [List.filter_cons]
    by_cases hp : p.1 = k
    · have : (decide (p.1 ≠ k)) = false := by simpa using hp
      rw [this]
      simp only [Bool.false_eq_true, if_false]
      exact ih
    · have hkeep : (decide (p.1 ≠ k)) = true := by simpa using hp
      rw [hkeep]
      simp only [if_true]
      rw [List.lookup]
      have : (k == p.1) = false := by
        simp only [beq_eq_false_iff_ne, ne_eq]
        exact fun hh => hp hh.symm
      rw [this]
      exact ih

theorem lookup_filter_keep (st : Storage) (k : String) (e : Entry)
    (p : String × Entry → Bool) (hl : st.lookup k = some e)
    (hkeep : p (k, e) = true) : (st.filter p).lookup k = some e := by
  induction st with
  | nil => cases hl
  | cons q t ih =>
    rw [List.lookup] at hl
    by_cases hq : (k == q.1) = true
    · rw [hq] at hl
      cases hl
      have hkq : q = (q.1, q.2) := rfl
      have heq : k = q.1 := by simpa using hq
      rw [List.filter_cons]
      have : p q = true := by
        rw [hkq]
        rw [← heq] at hkq ⊢
        simpa [heq] using hkeep
      rw [this]
      simp only [if_true]
      rw [List.lookup, hq]
    · simp only [Bool.not_eq_true] at hq
      rw [hq] at hl
      rw [List.filter_cons]
      cases hp : p q
      · simp only [if_false, Bool.false_eq_true]
        exact ih hl
      · simp only [if_true]
        rw [List.lookup, hq]
        exact ih hl


/-! ## Claim theorems -/

/-- C1 (code bug evaluation): storing the falsy-but-defined value `0` under
`"k"` succeeds (no error, entry present with the default TTL), yet an
immediate `get("k")` at the very same instant returns the `null` sentinel
instead of `0`: the guard `if (storage[key] && storage[key].data)` drops
every falsy stored value. -/
theorem c1_add_get_falsy_value_lost :
    addDefault 0 (some "k") (.num 0) []
      = ([("k", ⟨.num 0, some 60000⟩)], none)
    ∧ (get 0 "k" [("k", ⟨.num 0, some 60000⟩)]).1 = JSVal.null
    ∧ JSVal.null ≠ JSVal.num 0 := by
  refine ⟨rfl, rfl, by decide⟩

/-- C2 (counterexample): constructing with `clearExpiredMs: "abc"` (truthy,
not a number) raises `Incorrect value of options.clearExpiredMs`, so
construction can fail, contrary to the claim. -/
theorem c2_construction_counterexample :
    construct ⟨.str "abc", .bool false, .num 5000, .undef⟩
      = Except.error "Incorrect value of options.clearExpiredMs" := rfl

theorem truthy_ne_null {v : JSVal} (h : truthy v = true) : v ≠ JSVal.null := by
  cases v <;> simp_all [truthy]

theorem construct_error_iff (o : OptionsIn) :
    (∃ msg, construct o = .error msg)
      ↔ (truthy o.clearExpiredMs = true ∧ jsTypeofNumber o.clearExpiredMs = false) := by
  by_cases ht : truthy o.clearExpiredMs = true
  · simp only [construct, if_pos ht]
    split
    · rename_i hcond
      exact ⟨fun _ => ⟨ht, hcond.2⟩, fun _ => ⟨_, rfl⟩⟩
    · rename_i hcond
      constructor
      · rintro ⟨msg, hmsg⟩
        cases hmsg
      · rintro ⟨-, hn⟩
        exact absurd ⟨truthy_ne_null ht, hn⟩ hcond
  · simp only [construct, if_neg ht]
    have hno : ¬(JSVal.null ≠ JSVal.null ∧ jsTypeofNumber JSVal.null = false) := by
      simp
    rw [if_neg hno]
    constructor
    · rintro ⟨msg, hmsg⟩
      cases hmsg
    · rintro ⟨ht2, -⟩
      exact absurd ht2 ht

theorem construct_ok_char (o : OptionsIn) (co : CacheOptions)
    (hco : construct o = .ok co) :
    co.debug = (match o.debug with | .bool b => b | _ => false)
    ∧ co.maxSizeKb = (if jsTypeofNumber o.maxSizeKb then o.maxSizeKb else .null)
    ∧ co.clearExpiredMs
        = (match (if truthy o.clearExpiredMs then o.clearExpiredMs else .null) with
           | .num n => some n | _ => none) := by
  by_cases ht : truthy o.clearExpiredMs = true
  · simp only [construct, if_pos ht] at hco
    rw [if_pos ht]
    split at hco
    · cases hco
    · cases hco
      exact ⟨rfl, rfl, rfl⟩
  · simp only [construct, if_neg ht] at hco
    rw [if_neg ht]
    split at hco
    · cases hco
    · cases hco
      exact ⟨rfl, rfl, rfl⟩

/-- C2 (amended): construction raises an error exactly when
`options.clearExpiredMs` is truthy and not of number type; every other
invalid option falls back without failing: a falsy `clearExpiredMs`
(including `0`) becomes `null` (periodic clearing disabled, not the default
`10000`), a non-boolean `debug` becomes `false`, and a non-number
`maxSizeKb` becomes `null`.  No diagnostic is emitted anywhere. -/
theorem c2_option_validation (o : OptionsIn) :
    ((∃ msg, construct o = .error msg)
      ↔ (truthy o.clearExpiredMs = true ∧ jsTypeofNumber o.clearExpiredMs = false))
    ∧ (∀ co, construct o = .ok co →
        (co.debug = true ↔ o.debug = .bool true)
        ∧ (truthy o.clearExpiredMs = false → co.clearExpiredMs = none)
        ∧ (∀ n : Int, o.clearExpiredMs = .num n → n ≠ 0 → co.clearExpiredMs = some n)
        ∧ (jsTypeofNumber o.maxSizeKb = false → co.maxSizeKb = .null)) := by
  refine ⟨construct_error_iff o, fun co hco => ?_⟩
  obtain ⟨hdbg, hmsk, hcem⟩ := construct_ok_char o co hco
  refine ⟨?_, ?_, ?_, ?_⟩
  · rw [hdbg]
    cases o.debug <;> simp
  · intro ht
    rw [hcem, if_neg (by simp [ht])]
  · intro n hn hn0
    rw [hcem, hn]
    rw [if_pos (by simp [truthy, hn0])]
  · intro hm
    rw [hmsk, if_neg (by simp [hm])]

/-- C2 witness: at the concrete option set `clearExpiredMs = 0`,
`debug = "x"` (a string), `maxSizeKb = "y"`: construction succeeds with
periodic clearing disabled, debug off and `maxSizeKb` null. -/
theorem c2_option_validation_witness :
    ∃ co, construct ⟨.num 0, .str "x", .str "y", .undef⟩ = .ok co
      ∧ co.clearExpiredMs = none ∧ co.debug = false ∧ co.maxSizeKb = .null := by
  have h := c2_option_validation ⟨.num 0, .str "x", .str "y", .undef⟩
  refine ⟨_, rfl, (h.2 _ rfl).2.1 (by decide), ?_, (h.2 _ rfl).2.2.2 (by decide)⟩
  have hd := (h.2 _ rfl).1
  simp at hd
  simp [hd]


/-- C3 (counterexample): with the falsy-but-defined value `0` stored fresh
under `"k"`, `has` answers `true` while `get` answers the `null` sentinel at
the same instant, so the claimed equivalence fails. -/
theorem c3_has_get_counterexample :
    (has 0 "k" [("k", ⟨.num 0, some 60000⟩)]).1 = true
    ∧ (get 0 "k" [("k", ⟨.num 0, some 60000⟩)]).1 = JSVal.null := by
  exact ⟨rfl, rfl⟩

theorem truthy_data_ne {v : JSVal} (h : truthy v = true) :
    v ≠ JSVal.undef ∧ v ≠ JSVal.null := by
  cases v <;> simp_all [truthy]

/-- C3 (amended): `has(k) = true` iff `get(k)` does not return the `null`
sentinel, at the same instant and on the same state, PROVIDED every entry
stored under `k` holds truthy data.  (For falsy-but-defined stored data the
two disagree: `has` still answers true, `get` answers the sentinel.) -/
theorem c3_has_get_agree_on_truthy (now : Int) (k : String) (st : Storage)
    (htr : ∀ e, st.lookup k = some e → truthy e.data = true) :
    (has now k st).1 = true ↔ (get now k st).1 ≠ JSVal.null := by
  cases hl : st.lookup k with
  | none =>
      simp [has, get, hl]
  | some e =>
      have hd := truthy_data_ne (htr e hl)
      cases hexp : checkExpiration now e.expiresAt with
      | true =>
          have hcl := clear_lookup_none st k
          simp [has, get, hl, hexp, hcl]
      | false =>
          simp [has, get, hl, hexp, htr e hl, hd.1, hd.2]

/-- C3 witness: at a concrete fresh truthy entry the equivalence holds with
both sides true. -/
theorem c3_has_get_agree_on_truthy_witness :
    (has 0 "k" [("k", ⟨.num 5, some 100⟩)]).1 = true
      ↔ (get 0 "k" [("k", ⟨.num 5, some 100⟩)]).1 ≠ JSVal.null := by
  refine c3_has_get_agree_on_truthy 0 "k" [("k", ⟨.num 5, some 100⟩)] ?_
  intro e he
  simp [List.lookup] at he
  rw [← he]
  rfl

/-- C4 (code bug evaluation): the default TTL of `add` is the hard-coded
literal `60 * 1000`; the constructor never reads `options.liveTimeMs`, so
construction is entirely independent of it, and a cache constructed with
`liveTimeMs: 5000` still stamps `now + 60000` on an `add` without explicit
TTL (here `now = 7`, expiring at `60007`, not `5007`). -/
theorem c4_default_ttl_ignores_options :
    (∀ cem dbg msk t t' : JSVal,
        construct ⟨cem, dbg, msk, t⟩ = construct ⟨cem, dbg, msk, t'⟩)
    ∧ addDefault 7 (some "k") (.num 1) []
        = ([("k", ⟨.num 1, some 60007⟩)], none) := by
  exact ⟨fun _ _ _ _ _ => rfl, rfl⟩

/-- C5 (counterexample): `liveTimeMs = -1` is not a positive number, so the
claim demands `expiresAt = None` and immunity from `clearExpired`; the code
instead stamps `now - 1` (already in the past) and the very next sweep
evicts the entry. -/
theorem c5_ttl_counterexample :
    add 1000 (some "k") (.num 1) (.num (-1)) []
      = ([("k", ⟨.num 1, some 999⟩)], none)
    ∧ clearExpired 1000 [("k", ⟨.num 1, some 999⟩)] = [] := by
  exact ⟨rfl, rfl⟩

/-- C5 (amended): `add(k, v, t)` stamps `expiresAt = now + t` whenever `t` is
a TRUTHY number — nonzero and non-NaN, including negative values — and
otherwise (`0`, NaN, or any non-number) leaves `expiresAt = null`, in which
case the entry is never evicted by `clearExpired` no matter how much time
elapses. -/
theorem c5_expiresAt_assignment (now : Int) (k : String) (v t : JSVal)
    (st : Storage) (hv : v ≠ JSVal.undef) :
    ∃ st', add now (some k) v t st = (st', none)
      ∧ (∀ n : Int, t = .num n → n ≠ 0 →
           st'.lookup k = some ⟨v, some (now + n)⟩)
      ∧ ((t = .num 0 ∨ t = .nan ∨ jsTypeofNumber t = false) →
           st'.lookup k = some ⟨v, none⟩
           ∧ ∀ now' : Int, (clearExpired now' st').lookup k = some ⟨v, none⟩) := by
  refine ⟨setKey st k ⟨v, expiresAtOf now t⟩, ?_, ?_, ?_⟩
  · simp [add, hv]
  · intro n hn hn0
    subst hn
    rw [show expiresAtOf now (.num n) = some (now + n) by
          simp [expiresAtOf, hn0]]
    exact setKey_lookup st k ⟨v, some (now + n)⟩
  · intro hnone
    have hexp : expiresAtOf now t = none := by
      rcases hnone with h0 | hnan | hnn
      · subst h0; simp [expiresAtOf]
      · subst hnan; simp [expiresAtOf]
      · cases t <;> simp_all [expiresAtOf, jsTypeofNumber]
    rw [hexp]
    have hlk := setKey_lookup st k ⟨v, none⟩
    refine ⟨hlk, fun now' => ?_⟩
    refine lookup_filter_keep _ k ⟨v, none⟩ _ hlk ?_
    simp [expiresAtTruthy]

/-- C5 witness: storing with the non-numeric TTL `"x"` produces a
non-expiring entry that survives a sweep far in the future; storing with the
truthy negative TTL `-1` stamps a concrete timestamp. -/
theorem c5_expiresAt_assignment_witness :
    ∃ st', add 1000 (some "k") (.num 7) (.str "x") [] = (st', none)
      ∧ st'.lookup "k" = some ⟨.num 7, none⟩
      ∧ (clearExpired 1000000 st').lookup "k" = some ⟨.num 7, none⟩ := by
  obtain ⟨st', hadd, -, hnone⟩ :=
    c5_expiresAt_assignment 1000 "k" (.num 7) (.str "x") [] (by decide)
  have h2 := hnone (Or.inr (Or.inr rfl))
  exact ⟨st', hadd, h2.1, h2.2 1000000⟩


/-- C6: `getAll` runs a synchronous `clearExpired` sweep exactly when the
validated `clearExpiredMs` option is truthy (the same condition that started
the automatic timer); with periodic clearing disabled it returns the mapping
unchanged; and in both cases the object it returns IS the cache's storage
after the call (`return this.storage` aliases the live mapping). -/
theorem c6_getAll_sweep_iff_enabled (now : Int) (cem : Option Int)
    (st : Storage) :
    (optTruthy cem = false → getAll now cem st = (st, st))
    ∧ (optTruthy cem = true →
        getAll now cem st = (clearExpired now st, clearExpired now st))
    ∧ (getAll now cem st).1 = (getAll now cem st).2
    ∧ (optTruthy cem = timerStarted ⟨false, cem, .null⟩) := by
  refine ⟨fun h => ?_, fun h => ?_, ?_, rfl⟩
  · simp [getAll, h]
  · simp [getAll, h]
  · simp [getAll]

/-- C6 witness: with the default interval `10000` the sweep runs (the stale
entry disappears from the returned mapping); with clearing disabled (`null`)
the same stale entry is returned untouched. -/
theorem c6_getAll_sweep_iff_enabled_witness :
    getAll 5 (some 10000) [("a", ⟨.num 1, some 1⟩)] = ([], [])
    ∧ getAll 5 none [("a", ⟨.num 1, some 1⟩)]
        = ([("a", ⟨.num 1, some 1⟩)], [("a", ⟨.num 1, some 1⟩)]) := by
  constructor
  · rw [(c6_getAll_sweep_iff_enabled 5 (some 10000) [("a", ⟨.num 1, some 1⟩)]).2.1
        (by decide)]
    rfl
  · exact (c6_getAll_sweep_iff_enabled 5 none [("a", ⟨.num 1, some 1⟩)]).1 rfl

/-- C7 (counterexample): an entry whose `expiresAt` is the set timestamp `0`
(reachable: `add` at `now = 1000` with `liveTimeMs = -1000`) is strictly in
the past at `now = 1001`, so the claim says `clearExpired` removes it — but
the guard `storage[key].expiresAt &&` is falsy at `0` and the entry is
kept. -/
theorem c7_clearExpired_counterexample :
    add 1000 (some "k") (.num 5) (.num (-1000)) []
      = ([("k", ⟨.num 5, some 0⟩)], none)
    ∧ clearExpired 1001 [("k", ⟨.num 5, some 0⟩)]
        = [("k", ⟨.num 5, some 0⟩)]
    ∧ (0 : Int) < 1001 := by
  exact ⟨rfl, rfl, by decide⟩

/-- C7 (amended): one sweep, comparing every entry against the single
timestamp `now` captured at its start, removes exactly the entries whose
`expiresAt` is a set, NONZERO timestamp strictly less than `now`; fresh
entries, entries with no expiration, and entries with the (degenerate)
timestamp `0` are left untouched. -/
theorem c7_clearExpired_exact (now : Int) (st : Storage) (k : String)
    (e : Entry) :
    (k, e) ∈ clearExpired now st
      ↔ ((k, e) ∈ st
          ∧ ¬ ∃ t : Int, e.expiresAt = some t ∧ t ≠ 0 ∧ t < now) := by
  simp only [clearExpired, List.mem_filter, decide_eq_true_eq]
  cases he : e.expiresAt with
  | none => simp [expiresAtTruthy, he]
  | some t =>
      simp only [expiresAtTruthy, he, Option.getD_some, Option.some.injEq]
      constructor
      · rintro ⟨hmem, hcond⟩
        refine ⟨hmem, ?_⟩
        rintro ⟨t', ht', hne, hlt⟩
        subst ht'
        exact hcond ⟨by simpa using hne, by omega⟩
      · rintro ⟨hmem, hcond⟩
        refine ⟨hmem, fun hc => hcond ⟨t, rfl, by simpa using hc.1, by omega⟩⟩

/-- C7 witness: at `now = 1000`, the never-expiring entry is kept by the
sweep while the entry stamped `500` (set, nonzero, strictly past) is
removed. -/
theorem c7_clearExpired_exact_witness :
    ("k", (⟨.num 5, none⟩ : Entry)) ∈ clearExpired 1000 [("k", ⟨.num 5, none⟩)]
    ∧ ("a", (⟨.num 1, some 500⟩ : Entry))
        ∉ clearExpired 1000 [("a", ⟨.num 1, some 500⟩)] := by
  constructor
  · refine (c7_clearExpired_exact 1000 [("k", ⟨.num 5, none⟩)] "k" _).mpr
      ⟨by simp, ?_⟩
    rintro ⟨t, ht, -, -⟩
    cases ht
  · intro hmem
    have hc := (c7_clearExpired_exact 1000 [("a", ⟨.num 1, some 500⟩)] "a"
      ⟨.num 1, some 500⟩).mp hmem
    exact hc.2 ⟨500, rfl, by decide, by decide⟩

/-- C8: `add` raises (its error component is set) exactly when the key or
the value argument is `undefined`, and in that case the storage is returned
unchanged; the read-type operations raise nothing and return neutral
results on not-found inputs: `get` yields the `null` sentinel, `has` yields
`false`, `clear` of an absent key is a no-op, and after `clearAll` the key
list and count are empty/zero (all these are total functions — the source
contains no `throw` outside `add` and the constructor). -/
theorem c8_error_handling :
    (∀ (now : Int) (key : Option String) (v t : JSVal) (st : Storage),
        ((add now key v t st).2 ≠ none ↔ (key = none ∨ v = JSVal.undef))
        ∧ ((add now key v t st).2 ≠ none → (add now key v t st).1 = st))
    ∧ (∀ (now : Int) (k : String) (st : Storage), st.lookup k = none →
        get now k st = (JSVal.null, st)
        ∧ has now k st = (false, st)
        ∧ clear k st = st)
    ∧ (∀ st : Storage, getKeys (clearAll st) = [] ∧ getKeysQty (clearAll st) = 0) := by
  refine ⟨fun now key v t st => ⟨?_, ?_⟩, fun now k st hl => ⟨?_, ?_, ?_⟩,
      fun st => ⟨rfl, rfl⟩⟩
  · cases key with
    | none => simp [add]
    | some k =>
        by_cases hv : v = JSVal.undef
        · simp [add, hv]
        · simp [add, hv]
  · cases key with
    | none => simp [add]
    | some k =>
        by_cases hv : v = JSVal.undef
        · simp [add, hv]
        · simp [add, hv]
  · simp [get, hl]
  · simp [has, hl]
  · exact clear_of_absent st k hl

/-- C8 witness: concrete instances — `add(undefined, 1)` errors and leaves
the storage empty; `get`/`has`/`clear` on the absent key `"k"` of the empty
cache give the sentinel, `false` and the unchanged empty storage; `clearAll`
empties keys and count. -/
theorem c8_error_handling_witness :
    ((add 0 none (.num 1) (.num 1) []).1 = []
      ∧ (add 0 none (.num 1) (.num 1) []).2 ≠ none)
    ∧ get 0 "k" [] = (JSVal.null, [])
    ∧ has 0 "k" [] = (false, [])
    ∧ clear "k" ([] : Storage) = []
    ∧ getKeys (clearAll [("a", ⟨.num 1, none⟩)]) = [] := by
  have h := c8_error_handling
  have ha := h.1 0 none (.num 1) (.num 1) []
  have herr : (add 0 none (.num 1) (.num 1) []).2 ≠ none :=
    ha.1.mpr (Or.inl rfl)
  have hb := h.2.1 0 "k" ([] : Storage) rfl
  exact ⟨⟨ha.2 herr, herr⟩, hb.1, hb.2.1, hb.2.2,
    (h.2.2 [("a", ⟨.num 1, none⟩)]).1⟩

/-- C10 (implicit behavior, confirmed): for any present, non-expired entry
whose stored data is falsy (0, false, the empty string, null, NaN — and
vacuously undefined), `get` returns the `null` sentinel and the storage is
completely untouched: the deletion side effect happens only on expired
entries. -/
theorem c10_get_falsy_returns_null (now : Int) (k : String) (st : Storage)
    (e : Entry) (hl : st.lookup k = some e)
    (hexp : checkExpiration now e.expiresAt = false)
    (hfalsy : truthy e.data = false) :
    get now k st = (JSVal.null, st) := by
  simp [get, hl, hexp, hfalsy]

/-- C10 witness: the fresh entry holding `0` (expiring at 10, read at 0)
yields the sentinel and the storage is unchanged. -/
theorem c10_get_falsy_returns_null_witness :
    get 0 "k" [("k", ⟨.num 0, some 10⟩)]
      = (JSVal.null, [("k", ⟨.num 0, some 10⟩)]) := by
  refine c10_get_falsy_returns_null 0 "k" _ ⟨.num 0, some 10⟩ ?_ ?_ ?_
  · rfl
  · rfl
  · rfl


theorem le_foldr_max (l : List Nat) (i : Nat) (hi : i ∈ l) :
    i ≤ l.foldr max 0 := by
  induction l with
  | nil => cases hi
  | cons a t ih =>
    rcases List.mem_cons.mp hi with h1 | h2
    · subst h1
      exact Nat.le_max_left _ _
    · exact le_trans (ih h2) (Nat.le_max_right _ _)

theorem not_mem_heapIds_freshBase (h : Heap) (j : Nat)
    (hj : freshBase h ≤ j) : j ∉ heapIds h := by
  intro hmem
  have := le_foldr_max (heapIds h) j hmem
  unfold freshBase at hj
  omega

theorem lookup_append_right (l₁ l₂ : Heap) (a : Nat)
    (h : l₁.lookup a = none) : (l₁ ++ l₂).lookup a = l₂.lookup a := by
  induction l₁ with
  | nil => rfl
  | cons p t ih =>
    rw [List.lookup] at h
    cases hpa : (a == p.1) with
    | true => rw [hpa] at h; cases h
    | false =>
        rw [hpa] at h
        rw [List.cons_append, List.lookup, hpa]
        exact ih h

theorem storageHeap_nil (h : Heap) :
    storageHeap h [] = h ++ [(freshBase h, [])] := by
  simp [storageHeap]

set_option maxRecDepth 4000 in
/-- C9: the size estimate is a total, cycle-safe computation.  On an empty
cache it returns 0 (for any ambient heap); on a cache holding a
self-referencing (cyclic) object it still terminates — `sizeLoop` is
well-founded because each distinct object reference enters `objectList` at
most once — and returns a finite non-negative number (here 0 kb, the graph
being tiny). -/
theorem c9_getSizeKb_total :
    (∀ h : Heap, getSizeKb h [] = 0)
    ∧ getSizeKb [(0, [.obj 0])] [("k", ⟨.obj 0, none⟩)] = 0 := by
  constructor
  · intro h
    have hlk : (h ++ [(freshBase h, [])]).lookup (freshBase h) = some [] := by
      rw [lookup_append_right]
      · rw [List.lookup]
        simp
      · exact lookup_eq_none_of_not_mem h _ (not_mem_heapIds_freshBase h _ le_rfl)
    have hfields : fieldsOf (h ++ [(freshBase h, [])]) (freshBase h) = [] := by
      unfold fieldsOf
      rw [hlk]
    unfold getSizeKb calcApproxObjSize
    rw [storageHeap_nil]
    simp only [List.length_nil, Nat.add_zero]
    rw [sizeLoop]
    simp only [List.not_mem_nil, if_false, hfields, List.reverse_nil,
      List.nil_append]
    rw [sizeLoop]
  · have hsh : storageHeap [(0, [.obj 0])] [("k", ⟨.obj 0, none⟩)]
        = [(0, [.obj 0]), (1, [.obj 0, .null]), (2, [.obj 1])] := rfl
    unfold getSizeKb calcApproxObjSize
    rw [hsh]
    have hb : freshBase [(0, [JSVal.obj 0])] = 1 := rfl
    have hf0 : fieldsOf [(0, [JSVal.obj 0]), (1, [JSVal.obj 0, JSVal.null]),
        (2, [JSVal.obj 1])] 0 = [JSVal.obj 0] := rfl
    have hf1 : fieldsOf [(0, [JSVal.obj 0]), (1, [JSVal.obj 0, JSVal.null]),
        (2, [JSVal.obj 1])] 1 = [JSVal.obj 0, JSVal.null] := rfl
    have hf2 : fieldsOf [(0, [JSVal.obj 0]), (1, [JSVal.obj 0, JSVal.null]),
        (2, [JSVal.obj 1])] 2 = [JSVal.obj 1] := rfl
    rw [hb]
    simp +decide [sizeLoop, hf0, hf1, hf2]


end OneMinCache
